import Mathlib

/-!
Verification of the `pub` package (functional reactive pubsub nodes).

The embedding models:
* values flowing through the graph (`GoVal`), classified as error-class or
  data-class by the dynamic `v.(error)` type assertion (`GoVal.isErr`);
* nodes (`Pub` records: uuid, handler, async flag, subscriber list, root),
  held in a `State` registry keyed by uuid, with a counter standing in for
  the uuid generator;
* the dispatch layer: `Read`, `Write`, `WriteEvery` as trace-producing
  functions (a list of `Event`s), with recursion fuel for the subscriber
  fan-out (`Write` on a node calls `Write` on each subscriber);
* the registration layer: `Signal` / `AsyncSignal` and their data/error
  convenience variants, including the reflective structural adapter's
  shape checks, and the chain builders `Lift` / `DeLift`.

Handlers are modelled by a small code type `HandlerCode` covering the
canonical shapes the package itself builds (`WrapData`, `WrapError`, the
reflective adapter's closure) plus opaque user handlers; a handler body
observable through the `Ctx` surface can only use the Read/Write surface
(the Go `Ctx.RW()` exposes `ReadWriter` only, not `Reactor`), which is why
handler execution never mutates a subscriber list.
-/

namespace FauxPub

/-- A dynamic Go value: `goNil` is the nil interface value, `goErr e` is a
value whose runtime type satisfies the `error` interface, `goData d` any
other non-nil value. -/
inductive GoVal where
  | goNil
  | goErr (e : Nat)
  | goData (d : Nat)
deriving DecidableEq, Repr

/-- The `v.(error)` type assertion used by `Read`, `Write` and `WriteEvery`:
only a value of error runtime type succeeds (a nil interface does not). -/
def GoVal.isErr : GoVal → Bool
  | .goErr _ => true
  | _ => false

/-- `Read`'s dispatch classification: an error-class value is passed as
`(err, nil)`, anything else as `(nil, value)` (logs.go `Read`, the
`if err, ok := b.(error); ok` branch). -/
def classify : GoVal → Option Nat × GoVal
  | .goErr e => (some e, .goNil)
  | .goNil => (none, .goNil)
  | .goData d => (none, .goData d)

/-- Modelled from the spec: the reflection package (not under src/) reports,
for a callable's declared parameter type, whether the `Ctx` capability or the
`error` capability is assignable to it (`reflection.CanSetForType`), and
whether a supplied payload can be runtime-converted to it
(`reflection.CanSetFor`/`Convert`).  We model a declared parameter type by
those three verdicts. -/
structure GoType where
  ctxAssignable : Bool
  errAssignable : Bool
  acceptsPayload : Bool
deriving DecidableEq, Repr

/-- Handler codes: the canonical handler shapes the package constructs.
`hNoop` is an opaque user handler that performs no surface calls,
`hWritePayload` a user handler that forwards a data payload via its own
surface `Write`, `hWrapData`/`hWrapError` the wrappers built by
`WrapData`/`WrapError` (around an opaque data-only or error-only handler,
identified by a tag), and `hReflect` the reflective closure built by the
structural adapter around a callable with the given parameter types. -/
inductive HandlerCode where
  | hNoop
  | hWritePayload
  | hWrapData (dh : Nat)
  | hWrapError (eh : Nat)
  | hReflect (params : List GoType)
deriving DecidableEq, Repr

/-- The `pub` struct: uuid, canonical handler `op`, `async` mode flag,
subscriber list (by uuid), and the unused `root` back-reference. -/
structure Pub where
  uuid : Nat
  op : HandlerCode
  async : Bool
  subs : List Nat
  root : Option Nat
deriving DecidableEq, Repr

/-- The universe of live nodes, keyed by uuid; `next` is the fresh-uuid
counter standing in for the uuid generator. -/
structure State where
  nodes : List Pub
  next : Nat
deriving DecidableEq, Repr

/-- Registry lookup by uuid. -/
def lookupNode : List Pub → Nat → Option Pub
  | [], _ => none
  | nd :: rest, p => if nd.uuid = p then some nd else lookupNode rest p

/-- `findNode st p` resolves the node reference `p`. -/
def findNode (st : State) (p : Nat) : Option Pub :=
  lookupNode st.nodes p

/-- The subscriber list `p.subs` of node `p` (empty for a dangling
reference; the theorems hypothesise existence where it matters). -/
def subsOf (st : State) (p : Nat) : List Nat :=
  match findNode st p with
  | some nd => nd.subs
  | none => []

/-- Registry well-formedness: every stored uuid is below the counter, so a
freshly generated uuid is genuinely new. -/
def WfState (st : State) : Prop :=
  ∀ nd ∈ st.nodes, nd.uuid < st.next

instance : DecidablePred WfState := fun st =>
  inferInstanceAs (Decidable (∀ nd ∈ st.nodes, nd.uuid < st.next))

/-- Observable events of a dispatch:
`handlerInvoked p e d` — node `p`'s canonical handler `op` is invoked with
error `e` and payload `d` (by `Read`);
`writeEntry s v` — subscriber `s`'s `Write` entry point is invoked with `v`
(by a parent's `Write`/`WriteEvery` fan-out);
`asyncDispatch` — an asynchronous node's `Read` hands the invocation to an
independent concurrent task;
`ehInvoked`/`dhInvoked` — the wrapped error-only / data-only user handler
is called; `reflectInvoked` — the adapted callable is called by reflection. -/
inductive Event where
  | handlerInvoked (node : Nat) (err : Option Nat) (data : GoVal)
  | writeEntry (node : Nat) (v : GoVal)
  | asyncDispatch (node : Nat) (err : Option Nat) (data : GoVal)
  | ehInvoked (eh : Nat) (err : Option Nat)
  | dhInvoked (dh : Nat) (data : GoVal)
  | reflectInvoked (err : Option Nat) (data : GoVal)
deriving DecidableEq, Repr

/-- `p.Write(ctx, v)` (logs.go 480-506): under a shared lock, for each
registered subscriber `node` it calls `node.Write(ctxn, v)` — re-running the
`v.(error)` classification at each hop but forwarding the same value either
way, and never touching any handler.  The fuel bounds the recursion depth
through the subscriber graph (the Go code recurses unboundedly on cycles,
which the spec leaves to the caller to avoid). -/
def Write (st : State) : Nat → Nat → GoVal → List Event
  | 0, _, _ => []
  | fuel+1, p, v =>
    (subsOf st p).flatMap (fun s => Event.writeEntry s v :: Write st fuel s v)

/-- `NthFinder` (logs.go 470): takes index and length, returns a new index;
the Go return type is `int`, so the result may be negative. -/
def NthFinder : Type := Nat → Nat → Int

/-- `defaultFinder` (logs.go 508-510): the identity on the index. -/
def defaultFinder : NthFinder := fun index _length => (index : Int)

/-- `p.WriteEvery(ctx, v, finder)` (logs.go 515-554): `finder` defaults to
`defaultFinder` when nil; for each original index `0 ≤ index < nlen` it
computes `newIndex = finder index nlen` and forwards to `p.subs[index]`'s
`Write` only when `newIndex > 0 && newIndex < nlen`. -/
def WriteEvery (st : State) (fuel : Nat) (p : Nat) (v : GoVal)
    (finder? : Option NthFinder) : List Event :=
  let finder := match finder? with
    | none => defaultFinder
    | some f => f
  let subs := subsOf st p
  let nlen := subs.length
  (List.range nlen).flatMap (fun index =>
    let newIndex := finder index nlen
    if 0 < newIndex ∧ newIndex < (nlen : Int) then
      match subs.get? index with
      | some s => Event.writeEntry s v :: Write st fuel s v
      | none => []
    else [])

/-- Execution of a canonical handler body with arguments `(err, data)` on
node `self` (whose surface the invocation context exposes):
* `hNoop`: an opaque handler with no observable surface calls;
* `hWritePayload`: the spec's example handler — on a non-error invocation it
  calls `Write` on its own surface with the payload;
* `hWrapData dh` (`WrapData`, logs.go 346-354): an error is forwarded via
  `m.RW().Write(m, err)`, otherwise the data-only handler runs;
* `hWrapError eh` (`WrapError`, logs.go 362-370): a nil error invokes the
  error-only handler with that nil error, otherwise the *data* argument is
  forwarded via `m.RW().Write(m, data)`;
* `hReflect params` (logs.go 733-758): with an error present the callable is
  invoked by reflection with a nil payload; otherwise the payload must be
  convertible to the declared third-parameter type (modelled from the spec
  by `acceptsPayload`), a failed conversion silently aborting the call. -/
def runHandler (st : State) (fuel : Nat) (self : Nat) :
    HandlerCode → Option Nat → GoVal → List Event
  | .hNoop, _, _ => []
  | .hWritePayload, e?, d =>
    match e? with
    | some _ => []
    | none => Write st fuel self d
  | .hWrapData dh, e?, d =>
    match e? with
    | some e => Write st fuel self (.goErr e)
    | none => [.dhInvoked dh d]
  | .hWrapError eh, e?, d =>
    match e? with
    | none => [.ehInvoked eh none]
    | some _ => Write st fuel self d
  | .hReflect params, e?, d =>
    match e? with
    | some e => [.reflectInvoked (some e) .goNil]
    | none =>
      if (params.getD 2 ⟨false, false, false⟩).acceptsPayload then
        [.reflectInvoked none d]
      else []

/-- `p.Read(b, ctxs...)` (logs.go 436-466): classify `b` by the `error`
type assertion, then invoke `p.op` with `(err, nil)` or `(nil, b)` — inline
for a synchronous node, on an independent concurrent task for an
asynchronous one (modelled as an `asyncDispatch` event, since `Read` then
returns without waiting). -/
def Read (st : State) (fuel : Nat) (p : Nat) (v : GoVal) : List Event :=
  match findNode st p with
  | none => []
  | some nd =>
    let cl := classify v
    if nd.async then [.asyncDispatch p cl.1 cl.2]
    else .handlerInvoked p cl.1 cl.2 :: runHandler st fuel p nd.op cl.1 cl.2

/-- N sequential `Read` calls on the same node. -/
def reads (st : State) (fuel : Nat) (p : Nat) (vs : List GoVal) : List Event :=
  vs.flatMap (Read st fuel p)

/-- `WrapData` (logs.go 346-354) returns a canonical handler wrapping a
data-only handler: errors are forwarded via the node's write path, data is
given to the wrapped handler.  (Its behaviour is `runHandler`'s
`hWrapData` case.) -/
def WrapData (dh : Nat) : HandlerCode := .hWrapData dh

/-- `WrapError` (logs.go 362-370) returns a canonical handler wrapping an
error-only handler: a nil error invokes the wrapped handler with that nil
error, otherwise the data argument is forwarded via the node's write path.
(Its behaviour is `runHandler`'s `hWrapError` case.) -/
def WrapError (eh : Nat) : HandlerCode := .hWrapError eh

/-- `Sync`/`ASync` (logs.go 318-336): allocate a fresh node with a new uuid,
the given canonical handler, the chosen mode, and an empty subscriber list.
Returns the new state and the new node's uuid. -/
def mkNode (st : State) (async : Bool) (op : HandlerCode) : State × Nat :=
  let nd : Pub := { uuid := st.next, op := op, async := async, subs := [], root := none }
  ({ nodes := st.nodes ++ [nd], next := st.next + 1 }, st.next)

/-- The dynamic argument given to `Signal`/`AsyncSignal`, split by the Go
type switch (logs.go 685-759): an existing `Node`; a value of type
`Handler`; of type `ErrorHandler`; of type `DataHandler`; any other
function value (`reflection.IsFuncType` true — routed through the
structural adapter) with its parameter types; or a non-function value. -/
inductive SignalArg where
  | node (n : Nat)
  | handler (h : HandlerCode)
  | errorHandler (eh : Nat)
  | dataHandler (dh : Nat)
  | callable (params : List GoType)
  | notFunc
deriving DecidableEq, Repr

/-- The structural adapter's shape checks (logs.go 718-729): exactly three
parameters (`alen < 3 || alen > 3` rejects), the first assignable from the
`Ctx` capability, the second assignable from the `error` capability. -/
def structuralCheck (params : List GoType) : Bool :=
  if params.length < 3 || params.length > 3 then false
  else if !(params.getD 0 ⟨false, false, false⟩).ctxAssignable then false
  else if !(params.getD 1 ⟨false, false, false⟩).errAssignable then false
  else true

/-- Resolution of a `Signal`/`AsyncSignal` argument into the node `n` to
register (logs.go 685-759 / 593-668): an existing node is used as-is; a
`Handler` is wrapped by `Sync`/`ASync`; an `ErrorHandler`/`DataHandler` is
wrapped by an inline closure identical to `WrapError`/`WrapData`; any other
function goes through the structural adapter, `return nil` on a failed
check; a non-function fails `reflection.IsFuncType` and yields `return
nil`.  A `none` result leaves the state untouched (the early `return nil`
happens before any node creation or append). -/
def resolveArg (st : State) (async : Bool) : SignalArg → State × Option Nat
  | .node n => (st, some n)
  | .handler h =>
    let r := mkNode st async h
    (r.1, some r.2)
  | .errorHandler eh =>
    let r := mkNode st async (WrapError eh)
    (r.1, some r.2)
  | .dataHandler dh =>
    let r := mkNode st async (WrapData dh)
    (r.1, some r.2)
  | .callable params =>
    if structuralCheck params then
      let r := mkNode st async (.hReflect params)
      (r.1, some r.2)
    else (st, none)
  | .notFunc => (st, none)

/-- Helper for `appendSub`: the registry entry whose uuid is `p` gets `n`
appended to its subscriber list, every other entry is untouched. -/
def bumpSub (p n : Nat) (nd : Pub) : Pub :=
  if nd.uuid = p then { nd with subs := nd.subs ++ [n] } else nd

/-- `p.subs = append(p.subs, n)` under the exclusive lock: append `n` to
`p`'s subscriber list (the registry entry whose uuid is `p`). -/
def appendSub (st : State) (p : Nat) (n : Nat) : State :=
  { st with nodes := st.nodes.map (bumpSub p n) }

/-- Common body of `Signal` (sync) and `AsyncSignal` (async): resolve the
argument, and — unless resolution returned nil — append the resolved node
to `p`'s subscriber list under the exclusive lock and return it. -/
def signalWith (async : Bool) (st : State) (p : Nat) (arg : SignalArg) :
    State × Option Nat :=
  match resolveArg st async arg with
  | (st', none) => (st', none)
  | (st', some n) => (appendSub st' p n, some n)

/-- `p.Signal(node)` (logs.go 682-768). -/
def Signal (st : State) (p : Nat) (arg : SignalArg) : State × Option Nat :=
  signalWith false st p arg

/-- `p.AsyncSignal(node)` (logs.go 590-677). -/
def AsyncSignal (st : State) (p : Nat) (arg : SignalArg) : State × Option Nat :=
  signalWith true st p arg

/-- `p.SignalD(dh)` (logs.go 569-571): `p.Signal(WrapData(dh))`. -/
def SignalD (st : State) (p : Nat) (dh : Nat) : State × Option Nat :=
  Signal st p (.handler (WrapData dh))

/-- `p.AsyncSignalD(dh)` (logs.go 574-576): `p.AsyncSignal(WrapData(dh))`. -/
def AsyncSignalD (st : State) (p : Nat) (dh : Nat) : State × Option Nat :=
  AsyncSignal st p (.handler (WrapData dh))

/-- `p.SignalE(eh)` (logs.go 579-581): `p.Signal(WrapError(eh))`. -/
def SignalE (st : State) (p : Nat) (eh : Nat) : State × Option Nat :=
  Signal st p (.handler (WrapError eh))

/-- `p.AsyncSignalE(eh)` (logs.go 584-586): `p.AsyncSignal(WrapError(eh))`. -/
def AsyncSignalE (st : State) (p : Nat) (eh : Nat) : State × Option Nat :=
  AsyncSignal st p (.handler (WrapError eh))

/-- `Lift(rws...)` (logs.go 774-786): for `index` from `0` to `rwsLen-1`,
skipping `index < 1`, performs `rws[index-1].Signal(rws[index])`. -/
def Lift (st : State) (rws : List Nat) : State :=
  (List.range rws.length).foldl
    (fun acc index =>
      if index < 1 then acc
      else (Signal acc (rws.getD (index - 1) 0) (.node (rws.getD index 0))).1)
    st

/-- The Go runtime panic message for a negative slice index. -/
def negIndexPanic : String := "index out of range [-1]"

/-- Body of one `DeLift` loop iteration (logs.go 793-802): `continue` when
`index >= rwsLen-1`; otherwise `pnode := rws[index]`, `node :=
rws[index-1]`, `pnode.Signal(node)` — at `index = 0` the access
`rws[index-1]` is `rws[-1]`, a runtime panic. -/
def deLiftBody (st : State) (rws : List Nat) (index : Nat) :
    State × Option String :=
  if rws.length - 1 ≤ index then (st, none)
  else
    match index with
    | 0 => (st, some negIndexPanic)
    | i + 1 => ((Signal st (rws.getD (i + 1) 0) (.node (rws.getD i 0))).1, none)

/-- The `DeLift` loop, counting `index` down from `rwsLen-1` to `0`
(logs.go 793); a panic stops the loop, keeping the side effects performed
so far. -/
def deLiftLoop (rws : List Nat) : Nat → State → State × Option String
  | index, st =>
    match deLiftBody st rws index with
    | (st', some e) => (st', some e)
    | (st', none) =>
      match index with
      | 0 => (st', none)
      | i + 1 => deLiftLoop rws i st'

/-- `DeLift(rws...)` (logs.go 790-803).  The second component records a
runtime panic (Go unwinds, but registrations already performed on the live
nodes persist, which the first component keeps). -/
def DeLift (st : State) (rws : List Nat) : State × Option String :=
  match rws.length with
  | 0 => (st, none)
  | n + 1 => deLiftLoop rws n st

/-- Whether the `Signal`/`AsyncSignal` type switch accepts the argument
(everything except a non-function and a callable failing the structural
check); acceptance depends only on the argument's shape. -/
def acceptsArg : SignalArg → Bool
  | .notFunc => false
  | .callable params => structuralCheck params
  | _ => true

/-- One atomic operation of a concurrent workload against a fixed node `p`:
a registration (`Signal`, exclusive lock) or a fan-out (`Write` /
`WriteEvery`, shared lock).  The read-write lock serialises each
registration's critical section against all fan-outs and other
registrations, so any concurrent execution is equivalent to running the
critical sections in some interleaving order — which a `List ConcOp`
records. -/
inductive ConcOp where
  | reg (arg : SignalArg)
  | wr (fuel : Nat) (v : GoVal)
  | wrEvery (fuel : Nat) (v : GoVal)

/-- Run an interleaving of registrations and fan-outs against node `p`,
collecting the fan-out traces.  `Write`/`WriteEvery` only read the state
(their Go bodies never assign `subs`), so only `reg` steps thread a new
state. -/
def runOps (p : Nat) : State → List ConcOp → State × List Event
  | st, [] => (st, [])
  | st, .reg a :: rest =>
    runOps p (Signal st p a).1 rest
  | st, .wr fuel v :: rest =>
    let r := runOps p st rest
    (r.1, Write st fuel p v ++ r.2)
  | st, .wrEvery fuel v :: rest =>
    let r := runOps p st rest
    (r.1, WriteEvery st fuel p v none ++ r.2)

/-- Whether a concurrent operation is a registration that the type switch
accepts (and which therefore appends exactly one subscriber). -/
def isAcceptedReg : ConcOp → Bool
  | .reg a => acceptsArg a
  | _ => false

/-- The spec's rejection conditions for the structural adapter: the
argument is not a callable, or is a callable whose parameter count is not
exactly three, or whose first parameter is not assignable from the context
capability, or whose second is not assignable from the error capability. -/
def rejectedShape : SignalArg → Bool
  | .notFunc => true
  | .callable params =>
    decide (params.length ≠ 3)
      || !(params.getD 0 ⟨false, false, false⟩).ctxAssignable
      || !(params.getD 1 ⟨false, false, false⟩).errAssignable
  | _ => false

/-- Whether an event is an invocation of a node's canonical handler. -/
def Event.isHandlerCall : Event → Bool
  | .handlerInvoked _ _ _ => true
  | _ => false

/-- The adjacent pairs `(rws[index-1], rws[index])` that `Lift`'s loop
registers, in loop order. -/
def liftPairs (rws : List Nat) : List (Nat × Nat) :=
  (List.range rws.length).filterMap (fun index =>
    if index < 1 then none
    else some (rws.getD (index - 1) 0, rws.getD index 0))

/-- A concrete three-node registry (three synchronous no-op nodes with
uuids 0, 1, 2 and no subscribers), used to evaluate the operations on
explicit inputs. -/
def mkPlain (u : Nat) : Pub :=
  { uuid := u, op := .hNoop, async := false, subs := [], root := none }

/-- Three fresh synchronous nodes `a = 0`, `b = 1`, `c = 2`. -/
def st3 : State :=
  { nodes := [mkPlain 0, mkPlain 1, mkPlain 2], next := 3 }

/-- A node `0` with subscribers `1, 2` (in registration order) plus those
two subscriber nodes. -/
def stFan : State :=
  { nodes := [{ mkPlain 0 with subs := [1, 2] }, mkPlain 1, mkPlain 2], next := 3 }

/-- The spec's §8 example: a synchronous node `0` whose handler forwards a
non-error payload via its own `Write`, with one recording subscriber `1`. -/
def stExample : State :=
  { nodes := [{ uuid := 0, op := .hWritePayload, async := false, subs := [1], root := none },
              mkPlain 1],
    next := 2 }

/-! ### Registry lemmas -/

theorem bumpSub_uuid (p n : Nat) (nd : Pub) : (bumpSub p n nd).uuid = nd.uuid := by
  unfold bumpSub
  split <;> rfl

theorem lookupNode_map_bump (l : List Pub) (p n q : Nat) :
    lookupNode (l.map (bumpSub p n)) q = (lookupNode l q).map (bumpSub p n) := by
  induction l with
  | nil => rfl
  | cons nd rest ih =>
    simp only [List.map_cons, lookupNode, bumpSub_uuid]
    split
    · rfl
    · exact ih

theorem lookupNode_uuid {l : List Pub} {q : Nat} {nd : Pub}
    (h : lookupNode l q = some nd) : nd.uuid = q := by
  induction l with
  | nil => exact absurd h (by simp [lookupNode])
  | cons hd rest ih =>
    unfold lookupNode at h
    split at h
    · cases h
      assumption
    · exact ih h

theorem findNode_appendSub (st : State) (p n q : Nat) :
    findNode (appendSub st p n) q = (findNode st q).map (bumpSub p n) := by
  simpa [findNode, appendSub] using lookupNode_map_bump st.nodes p n q

theorem subsOf_appendSub_self {st : State} {p : Nat} (n : Nat)
    (h : (findNode st p).isSome) :
    subsOf (appendSub st p n) p = subsOf st p ++ [n] := by
  obtain ⟨nd, hnd⟩ := Option.isSome_iff_exists.mp h
  have huuid : nd.uuid = p := lookupNode_uuid hnd
  simp [subsOf, findNode_appendSub, hnd, bumpSub, huuid]

theorem subsOf_appendSub_ne {st : State} {p q : Nat} (n : Nat) (h : q ≠ p) :
    subsOf (appendSub st p n) q = subsOf st q := by
  unfold subsOf
  rw [findNode_appendSub]
  cases hq : findNode st q with
  | none => rfl
  | some nd =>
    have huuid : nd.uuid = q := lookupNode_uuid hq
    simp [bumpSub, huuid, h]

theorem isSome_findNode_appendSub {st : State} {q : Nat} (p n : Nat)
    (h : (findNode st q).isSome) : (findNode (appendSub st p n) q).isSome := by
  obtain ⟨nd, hnd⟩ := Option.isSome_iff_exists.mp h
  rw [findNode_appendSub, hnd]
  rfl

theorem lookupNode_append (l₁ l₂ : List Pub) (q : Nat) :
    lookupNode (l₁ ++ l₂) q =
      match lookupNode l₁ q with
      | some nd => some nd
      | none => lookupNode l₂ q := by
  induction l₁ with
  | nil => rfl
  | cons nd rest ih =>
    by_cases hq : nd.uuid = q
    · simp [lookupNode, hq]
    · simp [lookupNode, hq, ih]

theorem findNode_mkNode_of_isSome {st : State} {q : Nat} (async : Bool)
    (op : HandlerCode) (h : (findNode st q).isSome) :
    findNode (mkNode st async op).1 q = findNode st q := by
  obtain ⟨nd, hnd⟩ := Option.isSome_iff_exists.mp h
  simp only [findNode, mkNode] at *
  rw [lookupNode_append, hnd]

theorem subsOf_mkNode (st : State) (async : Bool) (op : HandlerCode) (q : Nat) :
    subsOf (mkNode st async op).1 q = subsOf st q := by
  unfold subsOf findNode mkNode
  rw [lookupNode_append]
  cases h : lookupNode st.nodes q with
  | some nd => rfl
  | none =>
    by_cases hq : st.next = q
    · simp [lookupNode, hq]
    · simp [lookupNode, hq]

/-! ### Equations for `signalWith` by argument shape -/

theorem signal_node_eq (async : Bool) (st : State) (p n : Nat) :
    signalWith async st p (.node n) = (appendSub st p n, some n) := rfl

theorem signal_handler_eq (async : Bool) (st : State) (p : Nat) (hc : HandlerCode) :
    signalWith async st p (.handler hc) =
      (appendSub (mkNode st async hc).1 p st.next, some st.next) := rfl

theorem signal_errorHandler_eq (async : Bool) (st : State) (p eh : Nat) :
    signalWith async st p (.errorHandler eh) =
      (appendSub (mkNode st async (WrapError eh)).1 p st.next, some st.next) := rfl

theorem signal_dataHandler_eq (async : Bool) (st : State) (p dh : Nat) :
    signalWith async st p (.dataHandler dh) =
      (appendSub (mkNode st async (WrapData dh)).1 p st.next, some st.next) := rfl

theorem signal_callable_pass (async : Bool) (st : State) (p : Nat)
    {params : List GoType} (h : structuralCheck params = true) :
    signalWith async st p (.callable params) =
      (appendSub (mkNode st async (.hReflect params)).1 p st.next, some st.next) := by
  simp [signalWith, resolveArg, h, mkNode]

theorem signal_callable_fail (async : Bool) (st : State) (p : Nat)
    {params : List GoType} (h : structuralCheck params = false) :
    signalWith async st p (.callable params) = (st, none) := by
  simp [signalWith, resolveArg, h]

theorem signal_notFunc_eq (async : Bool) (st : State) (p : Nat) :
    signalWith async st p .notFunc = (st, none) := rfl

theorem signalWith_none_eq {async : Bool} {st : State} {p : Nat} {arg : SignalArg}
    (h : (signalWith async st p arg).2 = none) :
    signalWith async st p arg = (st, none) := by
  cases arg with
  | node n => rw [signal_node_eq] at h; cases h
  | handler hc => rw [signal_handler_eq] at h; cases h
  | errorHandler eh => rw [signal_errorHandler_eq] at h; cases h
  | dataHandler dh => rw [signal_dataHandler_eq] at h; cases h
  | callable params =>
    cases hc : structuralCheck params with
    | true => rw [signal_callable_pass async st p hc] at h; cases h
    | false => exact signal_callable_fail async st p hc
  | notFunc => rfl

theorem signalWith_isSome_of_accepts {arg : SignalArg} (async : Bool) (st : State)
    (p : Nat) (h : acceptsArg arg = true) :
    ((signalWith async st p arg).2).isSome := by
  cases arg with
  | node n => rfl
  | handler hc => rfl
  | errorHandler eh => rfl
  | dataHandler dh => rfl
  | callable params =>
    have hc : structuralCheck params = true := h
    rw [signal_callable_pass async st p hc]
    rfl
  | notFunc => cases h

theorem subsOf_appendSub_mkNode {st : State} {p : Nat} (async : Bool)
    (op : HandlerCode) (n : Nat) (hp : (findNode st p).isSome) :
    subsOf (appendSub (mkNode st async op).1 p n) p = subsOf st p ++ [n]
    ∧ ∀ q, q ≠ p → subsOf (appendSub (mkNode st async op).1 p n) q = subsOf st q := by
  have hp1 : (findNode (mkNode st async op).1 p).isSome := by
    rw [findNode_mkNode_of_isSome async op hp]
    exact hp
  refine ⟨?_, ?_⟩
  · rw [subsOf_appendSub_self n hp1, subsOf_mkNode]
  · intro q hq
    rw [subsOf_appendSub_ne n hq, subsOf_mkNode]

/-- The effect of a successful registration on subscriber lists: exactly
the returned node is appended at the end of `p`'s list, every other list is
untouched. -/
theorem signalWith_some_subs {async : Bool} {st : State} {p n : Nat}
    {arg : SignalArg} (hp : (findNode st p).isSome)
    (h : (signalWith async st p arg).2 = some n) :
    subsOf (signalWith async st p arg).1 p = subsOf st p ++ [n]
    ∧ ∀ q, q ≠ p → subsOf (signalWith async st p arg).1 q = subsOf st q := by
  cases arg with
  | node m =>
    rw [signal_node_eq] at h ⊢
    cases h
    exact ⟨subsOf_appendSub_self n hp, fun q hq => subsOf_appendSub_ne n hq⟩
  | handler hc =>
    rw [signal_handler_eq] at h ⊢
    cases h
    exact subsOf_appendSub_mkNode async hc st.next hp
  | errorHandler eh =>
    rw [signal_errorHandler_eq] at h ⊢
    cases h
    exact subsOf_appendSub_mkNode async (WrapError eh) st.next hp
  | dataHandler dh =>
    rw [signal_dataHandler_eq] at h ⊢
    cases h
    exact subsOf_appendSub_mkNode async (WrapData dh) st.next hp
  | callable params =>
    cases hc : structuralCheck params with
    | true =>
      rw [signal_callable_pass async st p hc] at h ⊢
      cases h
      exact subsOf_appendSub_mkNode async (.hReflect params) st.next hp
    | false =>
      rw [signal_callable_fail async st p hc] at h
      cases h
  | notFunc => cases h

theorem isSome_findNode_signalWith {async : Bool} {st : State} {p q : Nat}
    {arg : SignalArg} (h : (findNode st q).isSome) :
    (findNode (signalWith async st p arg).1 q).isSome := by
  have hmk : ∀ (op : HandlerCode),
      (findNode (appendSub (mkNode st async op).1 p st.next) q).isSome := by
    intro op
    apply isSome_findNode_appendSub
    rw [findNode_mkNode_of_isSome async op h]
    exact h
  cases arg with
  | node m =>
    rw [signal_node_eq]
    exact isSome_findNode_appendSub p m h
  | handler hc =>
    rw [signal_handler_eq]
    exact hmk hc
  | errorHandler eh =>
    rw [signal_errorHandler_eq]
    exact hmk (WrapError eh)
  | dataHandler dh =>
    rw [signal_dataHandler_eq]
    exact hmk (WrapData dh)
  | callable params =>
    cases hc : structuralCheck params with
    | true =>
      rw [signal_callable_pass async st p hc]
      exact hmk (.hReflect params)
    | false =>
      rw [signal_callable_fail async st p hc]
      exact h
  | notFunc => exact h

/-! ### Trace lemmas for the dispatch layer -/

/-- Every event a `Write` fan-out produces is a `writeEntry` carrying the
written value: the fan-out only enters subscribers' `Write` entry points,
never a handler. -/
theorem write_mem_writeEntry {st : State} {v : GoVal} :
    ∀ {fuel p : Nat} {ev : Event}, ev ∈ Write st fuel p v →
      ∃ s, ev = Event.writeEntry s v := by
  intro fuel
  induction fuel with
  | zero =>
    intro p ev h
    simp [Write] at h
  | succ fuel ih =>
    intro p ev h
    simp only [Write] at h
    obtain ⟨s, _, hmem⟩ := List.mem_flatMap.mp h
    rcases List.mem_cons.mp hmem with h1 | h2
    · exact ⟨s, h1⟩
    · exact ih h2

theorem write_not_handlerCall {st : State} {fuel p : Nat} {v : GoVal} :
    ∀ ev ∈ Write st fuel p v, ev.isHandlerCall = false := by
  intro ev h
  obtain ⟨s, rfl⟩ := write_mem_writeEntry h
  rfl

/-- A handler body never emits a `handlerInvoked` event: the wrappers only
call the wrapped user handler or the node's own `Write` path. -/
theorem runHandler_not_handlerCall {st : State} {fuel self : Nat}
    {code : HandlerCode} {e? : Option Nat} {d : GoVal} :
    ∀ ev ∈ runHandler st fuel self code e? d, ev.isHandlerCall = false := by
  intro ev h
  cases code with
  | hNoop => simp [runHandler] at h
  | hWritePayload =>
    cases e? with
    | some e => simp [runHandler] at h
    | none =>
      simp only [runHandler] at h
      exact write_not_handlerCall ev h
  | hWrapData dh =>
    cases e? with
    | some e =>
      simp only [runHandler] at h
      exact write_not_handlerCall ev h
    | none =>
      simp only [runHandler, List.mem_singleton] at h
      subst h
      rfl
  | hWrapError eh =>
    cases e? with
    | none =>
      simp only [runHandler, List.mem_singleton] at h
      subst h
      rfl
    | some e =>
      simp only [runHandler] at h
      exact write_not_handlerCall ev h
  | hReflect params =>
    cases e? with
    | some e =>
      simp only [runHandler, List.mem_singleton] at h
      subst h
      rfl
    | none =>
      simp only [runHandler] at h
      split at h
      · rcases List.mem_singleton.mp h with rfl
        rfl
      · cases h

/-! ### `Lift` as a fold of appends -/

theorem lift_foldl_eq (idxs : List Nat) (rws : List Nat) :
    ∀ st : State,
      idxs.foldl
        (fun acc index =>
          if index < 1 then acc
          else (Signal acc (rws.getD (index - 1) 0) (.node (rws.getD index 0))).1)
        st
      = (idxs.filterMap (fun index =>
          if index < 1 then none
          else some (rws.getD (index - 1) 0, rws.getD index 0))).foldl
          (fun acc pr => appendSub acc pr.1 pr.2) st := by
  induction idxs with
  | nil => intro st; rfl
  | cons i rest ih =>
    intro st
    by_cases hi : i < 1
    · simp only [List.foldl_cons, List.filterMap_cons, if_pos hi]
      exact ih st
    · simp only [List.foldl_cons, List.filterMap_cons, if_neg hi]
      rw [ih]
      rfl

theorem Lift_eq_foldl_pairs (st : State) (rws : List Nat) :
    Lift st rws =
      (liftPairs rws).foldl (fun acc pr => appendSub acc pr.1 pr.2) st :=
  lift_foldl_eq (List.range rws.length) rws st

/-- Folding a list of `(parent, subscriber)` appends extends each present
node's subscriber list by exactly the subscribers registered on it, in
order. -/
theorem foldl_appendSub_subsOf :
    ∀ (ps : List (Nat × Nat)) (st : State) (q : Nat),
      (findNode st q).isSome →
      subsOf (ps.foldl (fun acc pr => appendSub acc pr.1 pr.2) st) q
        = subsOf st q ++ (ps.filter (fun pr => pr.1 == q)).map Prod.snd := by
  intro ps
  induction ps with
  | nil =>
    intro st q _
    simp
  | cons pr rest ih =>
    intro st q h
    have h1 : (findNode (appendSub st pr.1 pr.2) q).isSome :=
      isSome_findNode_appendSub pr.1 pr.2 h
    simp only [List.foldl_cons]
    rw [ih _ _ h1]
    by_cases hq : pr.1 = q
    · subst hq
      rw [subsOf_appendSub_self pr.2 h]
      simp [List.filter_cons, List.append_assoc]
    · rw [subsOf_appendSub_ne pr.2 (fun hqp => hq hqp.symm)]
      simp [List.filter_cons, hq]

/-! ### List helpers for the `WriteEvery` analysis -/

theorem flatMapCongr {α β : Type} {l : List α} {f g : α → List β}
    (h : ∀ a ∈ l, f a = g a) : l.flatMap f = l.flatMap g := by
  induction l with
  | nil => rfl
  | cons a rest ih =>
    rw [List.flatMap_cons, List.flatMap_cons, h a (List.mem_cons_self a rest),
      ih (fun b hb => h b (List.mem_cons_of_mem a hb))]

theorem get?_eq_some_getD {α : Type} (d : α) :
    ∀ (l : List α) (i : Nat), i < l.length → l.get? i = some (l.getD i d) := by
  intro l
  induction l with
  | nil =>
    intro i h
    cases h
  | cons a tl ih =>
    intro i h
    cases i with
    | zero => rfl
    | succ j => exact ih j (by simpa using h)

theorem map_getD_range {α β : Type} (d : α) (g : α → β) :
    ∀ l : List α, (List.range l.length).map (fun i => g (l.getD i d)) = l.map g := by
  intro l
  induction l with
  | nil => rfl
  | cons a tl ih =>
    rw [List.length_cons, List.range_succ_eq_map, List.map_cons, List.map_map]
    rw [show ((fun i => g ((a :: tl).getD i d)) ∘ Nat.succ) = fun i => g (tl.getD i d)
      from rfl]
    rw [ih]
    rfl

theorem flatMap_singleton_eq_map {α β : Type} (g : α → β) :
    ∀ l : List α, l.flatMap (fun a => [g a]) = l.map g := by
  intro l
  induction l with
  | nil => rfl
  | cons a tl ih =>
    rw [List.flatMap_cons, List.map_cons, ih]
    rfl

/-- A `flatMap` over all positions of `l` forwarding exactly at positions
`1 ≤ i` collapses to a `map` over `l` without its head. -/
theorem range_one_le_flatMap_drop {α β : Type} (d : α) (g : α → β) :
    ∀ l : List α,
      (List.range l.length).flatMap (fun i => if 1 ≤ i then [g (l.getD i d)] else [])
        = (l.drop 1).map g := by
  intro l
  cases l with
  | nil => rfl
  | cons a tl =>
    rw [List.length_cons, List.range_succ_eq_map, List.flatMap_cons, if_neg (by omega),
      List.flatMap_map, List.nil_append]
    rw [flatMapCongr (g := fun i => [g (tl.getD i d)])
      (fun i _ => by simp [Nat.succ_le_succ (Nat.zero_le i), List.getD_cons_succ])]
    rw [flatMap_singleton_eq_map, List.drop_one, List.tail_cons]
    exact map_getD_range d g tl

/-! ### The structural adapter's checks -/

theorem structuralCheck_true_iff {params : List GoType} :
    structuralCheck params = true ↔
      params.length = 3
      ∧ (params.getD 0 ⟨false, false, false⟩).ctxAssignable = true
      ∧ (params.getD 1 ⟨false, false, false⟩).errAssignable = true := by
  unfold structuralCheck
  constructor
  · intro h
    split_ifs at h with h1 h2 h3
    refine ⟨?_, ?_, ?_⟩
    · simp only [Bool.or_eq_true, decide_eq_true_eq, not_or] at h1
      omega
    · simpa using h2
    · simpa using h3
  · intro ⟨h1, h2, h3⟩
    rw [if_neg (by rw [h1]; simp), if_neg (by rw [h2]; simp), if_neg (by rw [h3]; simp)]

theorem structuralCheck_false_of_rejected {params : List GoType}
    (h : rejectedShape (.callable params) = true) :
    structuralCheck params = false := by
  rw [Bool.eq_false_iff]
  intro htrue
  obtain ⟨h1, h2, h3⟩ := structuralCheck_true_iff.mp htrue
  have h' : (decide (params.length ≠ 3)
      || !(params.getD 0 ⟨false, false, false⟩).ctxAssignable
      || !(params.getD 1 ⟨false, false, false⟩).errAssignable) = true := h
  simp only [Bool.or_eq_true] at h'
  rcases h' with (hl | hc) | he
  · exact (decide_eq_true_eq.mp hl) h1
  · rw [h2] at hc
    simp at hc
  · rw [h3] at he
    simp at he

theorem signalWith_none_of_not_accepts {arg : SignalArg} (async : Bool)
    (st : State) (p : Nat) (h : acceptsArg arg = false) :
    (signalWith async st p arg).2 = none := by
  cases arg with
  | node n => cases h
  | handler hc => cases h
  | errorHandler eh => cases h
  | dataHandler dh => cases h
  | callable params =>
    rw [signal_callable_fail async st p h]
  | notFunc => rfl

/-! ### `DeLift` panics -/

/-- The `DeLift` loop, once entered with at least two nodes, always reaches
`index = 0` and panics evaluating `rws[-1]`. -/
theorem deLiftLoop_panics {rws : List Nat} (h : 2 ≤ rws.length) :
    ∀ (index : Nat) (st : State),
      (deLiftLoop rws index st).2 = some negIndexPanic := by
  intro index
  induction index with
  | zero =>
    intro st
    have hguard : ¬ rws.length - 1 ≤ 0 := by omega
    simp [deLiftLoop, deLiftBody, hguard]
  | succ i ih =>
    intro st
    rw [deLiftLoop]
    cases hbody : deLiftBody st rws (i + 1) with
    | mk st' e? =>
      cases e? with
      | some e =>
        exfalso
        unfold deLiftBody at hbody
        split at hbody
        · cases hbody
        · cases hbody
      | none =>
        simp only
        exact ih st'

/-! ### The claims -/

/-- Claim C1 (code bug): the spec says `DeLift(nodes...)` walks the list
backward registering `nodes[i-1]` as a subscriber of `nodes[i]` for every
adjacent pair and completes normally; the code instead skips the top pair
(its `continue` guard fires at `index = rwsLen-1`) and then, at
`index = 0`, evaluates `rws[index-1] = rws[-1]`, a runtime panic — so every
call with at least two nodes panics.  Concretely, `DeLift(a, b, c)`
registers only `a` under `b` and never registers `b` under `c` before
panicking. -/
theorem DeLift_reverse_chain_code_bug :
    (∀ (st : State) (rws : List Nat), 2 ≤ rws.length →
        (DeLift st rws).2 = some negIndexPanic)
    ∧ (DeLift st3 [0, 1, 2]).2 = some negIndexPanic
    ∧ subsOf (DeLift st3 [0, 1, 2]).1 1 = [0]
    ∧ subsOf (DeLift st3 [0, 1, 2]).1 2 = []
    ∧ subsOf (DeLift st3 [0, 1, 2]).1 0 = [] := by
  refine ⟨?_, rfl, rfl, rfl, rfl⟩
  intro st rws h2
  unfold DeLift
  cases hl : rws.length with
  | zero => omega
  | succ nn => exact deLiftLoop_panics h2 nn st

theorem DeLift_reverse_chain_code_bug_w :
    (DeLift st3 [0, 1, 2]).2 = some negIndexPanic :=
  DeLift_reverse_chain_code_bug.1 st3 [0, 1, 2] (by decide)

/-- Claim C2: `WriteEvery` visits every original subscriber position
`i ∈ 0..N-1`, computes `newIndex = finder(i, N)`, and forwards (to
`subs[i]`'s `Write`) exactly when `0 < newIndex < N`; the finder defaults
to the identity when none is supplied, in which case the forwarded
positions are exactly `1..N-1` and never position `0`. -/
theorem WriteEvery_index_gate (st : State) (p : Nat) (v : GoVal) :
    (∀ (f : NthFinder) (fuel : Nat),
      WriteEvery st fuel p v (some f)
        = (List.range (subsOf st p).length).flatMap (fun index =>
            if 0 < f index (subsOf st p).length ∧
                f index (subsOf st p).length < ((subsOf st p).length : Int) then
              Event.writeEntry ((subsOf st p).getD index 0) v
                :: Write st fuel ((subsOf st p).getD index 0) v
            else []))
    ∧ (∀ fuel : Nat, WriteEvery st fuel p v none
        = WriteEvery st fuel p v (some defaultFinder))
    ∧ WriteEvery st 0 p v none
        = ((subsOf st p).drop 1).map (fun s => Event.writeEntry s v) := by
  have hgen : ∀ (f : NthFinder) (fuel : Nat),
      WriteEvery st fuel p v (some f)
        = (List.range (subsOf st p).length).flatMap (fun index =>
            if 0 < f index (subsOf st p).length ∧
                f index (subsOf st p).length < ((subsOf st p).length : Int) then
              Event.writeEntry ((subsOf st p).getD index 0) v
                :: Write st fuel ((subsOf st p).getD index 0) v
            else []) := by
    intro f fuel
    apply flatMapCongr
    intro i hi
    have hlt : i < (subsOf st p).length := List.mem_range.mp hi
    show (if 0 < f i (subsOf st p).length ∧
        f i (subsOf st p).length < ((subsOf st p).length : Int) then
        match (subsOf st p).get? i with
        | some s => Event.writeEntry s v :: Write st fuel s v
        | none => []
      else []) = _
    rw [get?_eq_some_getD 0 (subsOf st p) i hlt]
  refine ⟨hgen, fun fuel => rfl, ?_⟩
  rw [show WriteEvery st 0 p v none = WriteEvery st 0 p v (some defaultFinder) from rfl,
    hgen defaultFinder 0]
  rw [flatMapCongr
      (g := fun i => if 1 ≤ i then [Event.writeEntry ((subsOf st p).getD i 0) v] else [])
      (fun i hi => ?_)]
  · exact range_one_le_flatMap_drop 0 (fun s => Event.writeEntry s v) (subsOf st p)
  · have hlt : i < (subsOf st p).length := List.mem_range.mp hi
    by_cases h1 : 1 ≤ i
    · rw [if_pos (show 0 < defaultFinder i (subsOf st p).length ∧
          defaultFinder i (subsOf st p).length < ((subsOf st p).length : Int) from
          ⟨by simp [defaultFinder]; omega, by simp [defaultFinder]; omega⟩)]
      show Event.writeEntry ((subsOf st p).getD i 0) v
            :: Write st 0 ((subsOf st p).getD i 0) v
          = if 1 ≤ i then [Event.writeEntry ((subsOf st p).getD i 0) v] else []
      rw [if_pos h1]
      rfl
    · rw [if_neg (show ¬(0 < defaultFinder i (subsOf st p).length ∧
          defaultFinder i (subsOf st p).length < ((subsOf st p).length : Int)) from by
          simp [defaultFinder]; omega)]
      show ([] : List Event)
          = if 1 ≤ i then [Event.writeEntry ((subsOf st p).getD i 0) v] else []
      rw [if_neg h1]

/-- Claim C3: `Write` forwards the (per-hop reclassified) value to every
currently registered subscriber by invoking that subscriber's `Write`
entry point; every event a fan-out produces is such an entry — no handler
is ever invoked by `Write` — and a handler runs only through an explicit
`Read`, which on a synchronous node invokes the receiver's own handler. -/
theorem Write_fanout_entry_points (st : State) (fuel p : Nat) (v : GoVal) :
    (∀ s ∈ subsOf st p, Event.writeEntry s v ∈ Write st (fuel + 1) p v)
    ∧ (∀ ev ∈ Write st fuel p v, ∃ s, ev = Event.writeEntry s v)
    ∧ (∀ nd, findNode st p = some nd → nd.async = false →
        Read st fuel p v
          = Event.handlerInvoked p (classify v).1 (classify v).2
            :: runHandler st fuel p nd.op (classify v).1 (classify v).2) := by
  refine ⟨?_, fun ev h => write_mem_writeEntry h, ?_⟩
  · intro s hs
    simp only [Write]
    exact List.mem_flatMap.mpr ⟨s, hs, List.mem_cons_self _ _⟩
  · intro nd h ha
    simp [Read, h, ha]

theorem Write_fanout_entry_points_w :
    Event.writeEntry 1 (GoVal.goData 5) ∈ Write stFan 1 0 (GoVal.goData 5) :=
  (Write_fanout_entry_points stFan 0 0 (GoVal.goData 5)).1 1 (by decide)

/-- Claim C4: the structural adapter returns no node (nil) for a
non-callable, a callable with parameter count other than three, one whose
first parameter is not assignable from the context capability, or one
whose second parameter is not assignable from the error capability — for
both `Signal` and `AsyncSignal`. -/
theorem adapter_rejects_yields_nil (st : State) (p : Nat) (arg : SignalArg)
    (h : rejectedShape arg = true) :
    (Signal st p arg).2 = none ∧ (AsyncSignal st p arg).2 = none := by
  have hall : ∀ async : Bool, (signalWith async st p arg).2 = none := by
    intro async
    cases arg with
    | node n => cases h
    | handler hc => cases h
    | errorHandler eh => cases h
    | dataHandler dh => cases h
    | callable params =>
      rw [signal_callable_fail async st p (structuralCheck_false_of_rejected h)]
    | notFunc => rfl
  exact ⟨hall false, hall true⟩

theorem adapter_rejects_yields_nil_w :
    (Signal st3 0 (SignalArg.callable [])).2 = none
      ∧ (AsyncSignal st3 0 (SignalArg.callable [])).2 = none :=
  adapter_rejects_yields_nil st3 0 (SignalArg.callable []) (by decide)

/-- Claim C5: the canonical handler `WrapError` builds from an error-only
handler `eh` calls `eh` with the absent (nil) error when no error is
present — and nothing else — and on an error invocation never calls `eh`,
instead forwarding the payload argument via the node's own `Write` (its
trace is exactly the `Write` fan-out of the payload, all `writeEntry`
events). -/
theorem WrapError_branch_behaviour (st : State) (fuel self eh : Nat) (d : GoVal) :
    runHandler st fuel self (WrapError eh) none d = [Event.ehInvoked eh none]
    ∧ (∀ e, runHandler st fuel self (WrapError eh) (some e) d = Write st fuel self d)
    ∧ (∀ e, ∀ ev ∈ runHandler st fuel self (WrapError eh) (some e) d,
        ∃ s, ev = Event.writeEntry s d) := by
  refine ⟨rfl, fun e => rfl, fun e ev hev => ?_⟩
  exact write_mem_writeEntry hev

theorem WrapError_branch_behaviour_w :
    runHandler st3 1 0 (WrapError 7) (some 3) (GoVal.goData 9)
      = Write st3 1 0 (GoVal.goData 9) :=
  (WrapError_branch_behaviour st3 1 0 7 (GoVal.goData 9)).2.1 3

/-- Claim C6: on a synchronous node, each `Read(v)` invokes the node's
handler exactly once, inline, with `(error=v, payload=nil)` when `v` is
error-typed and `(error=nil, payload=v)` otherwise; so N sequential reads
produce exactly N handler invocations, in call order, with no loss. -/
theorem sync_read_invokes_handler_per_call (st : State) (p : Nat) (nd : Pub)
    (h : findNode st p = some nd) (ha : nd.async = false) (fuel : Nat)
    (vs : List GoVal) :
    (reads st fuel p vs).filter Event.isHandlerCall
      = vs.map (fun v => Event.handlerInvoked p (classify v).1 (classify v).2) := by
  induction vs with
  | nil => rfl
  | cons v rest ih =>
    have hread : Read st fuel p v
        = Event.handlerInvoked p (classify v).1 (classify v).2
          :: runHandler st fuel p nd.op (classify v).1 (classify v).2 := by
      simp [Read, h, ha]
    have hnil : (runHandler st fuel p nd.op (classify v).1 (classify v).2).filter
        Event.isHandlerCall = [] := by
      rw [List.filter_eq_nil_iff]
      intro ev hev
      simp [runHandler_not_handlerCall ev hev]
    rw [show reads st fuel p (v :: rest)
        = Read st fuel p v ++ reads st fuel p rest from rfl]
    rw [List.filter_append, hread, List.filter_cons]
    simp only [Event.isHandlerCall, if_true]
    rw [hnil, ih]
    rfl

theorem sync_read_invokes_handler_per_call_w :
    (reads stExample 1 0 [GoVal.goData 4, GoVal.goErr 2]).filter Event.isHandlerCall
      = [GoVal.goData 4, GoVal.goErr 2].map
          (fun v => Event.handlerInvoked 0 (classify v).1 (classify v).2) :=
  sync_read_invokes_handler_per_call stExample 0
    { uuid := 0, op := .hWritePayload, async := false, subs := [1], root := none }
    rfl rfl 1 [GoVal.goData 4, GoVal.goErr 2]

/-- Claim C7: `Lift(nodes...)` registers `nodes[i]` as a subscriber of
`nodes[i-1]` for each `i` from 1 to N-1: every present node's subscriber
list is extended (at the end, in order) by exactly the successors the
chain assigns it, and in particular `nodes[i] ∈ subs(nodes[i-1])`
afterwards. -/
theorem Lift_forward_chain (st : State) (rws : List Nat) :
    (∀ q, (findNode st q).isSome →
        subsOf (Lift st rws) q
          = subsOf st q
            ++ ((liftPairs rws).filter (fun pr => pr.1 == q)).map Prod.snd)
    ∧ ∀ i, 1 ≤ i → i < rws.length →
        (findNode st (rws.getD (i - 1) 0)).isSome →
        rws.getD i 0 ∈ subsOf (Lift st rws) (rws.getD (i - 1) 0) := by
  have hmain : ∀ q, (findNode st q).isSome →
      subsOf (Lift st rws) q
        = subsOf st q
          ++ ((liftPairs rws).filter (fun pr => pr.1 == q)).map Prod.snd := by
    intro q hq
    rw [Lift_eq_foldl_pairs]
    exact foldl_appendSub_subsOf (liftPairs rws) st q hq
  refine ⟨hmain, ?_⟩
  intro i h1 hi hq
  rw [hmain _ hq]
  apply List.mem_append_right
  apply List.mem_map.mpr
  refine ⟨(rws.getD (i - 1) 0, rws.getD i 0), ?_, rfl⟩
  apply List.mem_filter.mpr
  refine ⟨?_, by simp⟩
  unfold liftPairs
  apply List.mem_filterMap.mpr
  exact ⟨i, List.mem_range.mpr hi, by rw [if_neg (by omega)]⟩

theorem Lift_forward_chain_w :
    1 ∈ subsOf (Lift st3 [0, 1, 2]) 0 ∧ 2 ∈ subsOf (Lift st3 [0, 1, 2]) 1 :=
  ⟨(Lift_forward_chain st3 [0, 1, 2]).2 1 (by decide) (by decide) (by decide),
   (Lift_forward_chain st3 [0, 1, 2]).2 2 (by decide) (by decide) (by decide)⟩

/-- Claim C8: registration is the only mutation of a subscriber list and
is append-only and order-preserving: a successful `Signal`/`AsyncSignal`
(or variant, all built on `signalWith`) appends exactly the returned node
at the end of the receiver's list, leaves every other node's list
untouched, and a rejected registration leaves the whole state unchanged. -/
theorem signal_append_only (async : Bool) (st : State) (p : Nat) (nd : Pub)
    (h : findNode st p = some nd) (arg : SignalArg) :
    ((signalWith async st p arg).2 = none → (signalWith async st p arg).1 = st)
    ∧ ∀ n, (signalWith async st p arg).2 = some n →
        subsOf (signalWith async st p arg).1 p = subsOf st p ++ [n]
        ∧ ∀ q, q ≠ p → subsOf (signalWith async st p arg).1 q = subsOf st q := by
  refine ⟨fun hn => ?_, fun n hn => signalWith_some_subs (by rw [h]; rfl) hn⟩
  rw [signalWith_none_eq hn]

theorem signal_append_only_w :
    subsOf (signalWith false st3 0 (SignalArg.node 2)).1 0 = subsOf st3 0 ++ [2] :=
  ((signal_append_only false st3 0 (mkPlain 0) rfl (SignalArg.node 2)).2 2 rfl).1

/-- Claim C9: any interleaving of registrations (exclusive lock) and
`Write`/`WriteEvery` fan-outs (shared lock) against one node — each
critical section atomic under the node's read-write lock — leaves the
subscriber list uncorrupted: its final length is the original length plus
the number of accepted registrations, and the original entries survive
intact as a prefix. -/
theorem concurrent_signal_write_ok (p : Nat) (ops : List ConcOp) :
    ∀ st : State, (findNode st p).isSome →
      (subsOf (runOps p st ops).1 p).length
          = (subsOf st p).length + ops.countP isAcceptedReg
      ∧ subsOf st p <+: subsOf (runOps p st ops).1 p := by
  induction ops with
  | nil =>
    intro st _
    exact ⟨by simp [runOps], List.prefix_refl _⟩
  | cons op rest ih =>
    intro st h
    cases op with
    | reg a =>
      rw [show runOps p st (.reg a :: rest)
          = runOps p (signalWith false st p a).1 rest from rfl]
      cases ha : acceptsArg a with
      | true =>
        obtain ⟨n, hn⟩ := Option.isSome_iff_exists.mp
          (signalWith_isSome_of_accepts false st p ha)
        obtain ⟨hself, _⟩ := signalWith_some_subs h hn
        have hpres : (findNode (signalWith false st p a).1 p).isSome :=
          isSome_findNode_signalWith h
        obtain ⟨ihlen, ihpre⟩ := ih (signalWith false st p a).1 hpres
        have hcount : (ConcOp.reg a :: rest).countP isAcceptedReg
            = rest.countP isAcceptedReg + 1 := by
          simp [List.countP_cons, isAcceptedReg, ha]
        constructor
        · rw [ihlen, hself, hcount, List.length_append, List.length_singleton]
          omega
        · refine List.IsPrefix.trans ?_ ihpre
          rw [hself]
          exact List.prefix_append (subsOf st p) [n]
      | false =>
        have heq : (signalWith false st p a).1 = st := by
          rw [signalWith_none_eq (signalWith_none_of_not_accepts false st p ha)]
        rw [heq]
        obtain ⟨ihlen, ihpre⟩ := ih st h
        have hcount : (ConcOp.reg a :: rest).countP isAcceptedReg
            = rest.countP isAcceptedReg := by
          simp [List.countP_cons, isAcceptedReg, ha]
        rw [ihlen, hcount]
        exact ⟨rfl, ihpre⟩
    | wr fuel v =>
      rw [show (runOps p st (.wr fuel v :: rest)).1 = (runOps p st rest).1 from rfl]
      obtain ⟨ihlen, ihpre⟩ := ih st h
      have hcount : (ConcOp.wr fuel v :: rest).countP isAcceptedReg
          = rest.countP isAcceptedReg := by
        simp [List.countP_cons, isAcceptedReg]
      rw [ihlen, hcount]
      exact ⟨rfl, ihpre⟩
    | wrEvery fuel v =>
      rw [show (runOps p st (.wrEvery fuel v :: rest)).1 = (runOps p st rest).1 from rfl]
      obtain ⟨ihlen, ihpre⟩ := ih st h
      have hcount : (ConcOp.wrEvery fuel v :: rest).countP isAcceptedReg
          = rest.countP isAcceptedReg := by
        simp [List.countP_cons, isAcceptedReg]
      rw [ihlen, hcount]
      exact ⟨rfl, ihpre⟩

theorem concurrent_signal_write_ok_w :
    (subsOf (runOps 0 st3 [ConcOp.reg (.node 2), ConcOp.wr 1 .goNil,
        ConcOp.reg .notFunc, ConcOp.reg (.handler .hNoop)]).1 0).length
      = (subsOf st3 0).length
        + ([ConcOp.reg (.node 2), ConcOp.wr 1 .goNil,
            ConcOp.reg .notFunc, ConcOp.reg (.handler .hNoop)].countP isAcceptedReg)
    ∧ subsOf st3 0 <+: subsOf (runOps 0 st3 [ConcOp.reg (.node 2), ConcOp.wr 1 .goNil,
        ConcOp.reg .notFunc, ConcOp.reg (.handler .hNoop)]).1 0 :=
  concurrent_signal_write_ok 0
    [ConcOp.reg (.node 2), ConcOp.wr 1 .goNil,
      ConcOp.reg .notFunc, ConcOp.reg (.handler .hNoop)] st3 (by decide)

/-- Claim C10: an argument whose shape the adapter rejects (so that
`Signal`/`AsyncSignal` returns nil) leaves the state — in particular the
receiver's subscriber list — exactly unchanged: the `return nil` happens
before any append, so a failed registration never adds any entry. -/
theorem rejected_signal_leaves_list (st : State) (p : Nat) (arg : SignalArg) :
    ((Signal st p arg).2 = none → (Signal st p arg).1 = st)
    ∧ ((AsyncSignal st p arg).2 = none → (AsyncSignal st p arg).1 = st) := by
  constructor
  · intro hn
    have h2 : Signal st p arg = (st, none) := signalWith_none_eq hn
    rw [h2]
  · intro hn
    have h2 : AsyncSignal st p arg = (st, none) := signalWith_none_eq hn
    rw [h2]

theorem rejected_signal_leaves_list_w :
    (Signal st3 0 SignalArg.notFunc).1 = st3 :=
  (rejected_signal_leaves_list st3 0 SignalArg.notFunc).1 rfl

end FauxPub
